import Mathlib

/-!
Verification of the SNMP traffic monitor (`monitor_snmp.py`).

The monitoring tick (the body of the `if st.session_state.monitoring:` block)
is embedded as a pure state-transition function `tick` over `MonState`; times
and rates are modelled as rationals, octet counters as integers.  Python's
`round(x, n)` (round-half-to-even on the scaled value) is modelled by
`pyRound`, the graph scaling logic of `plot_graph` by `plot_graph`, the
display slice `traffic_data[-num_points:]` by `lastN`, and `is_valid_ip`
(Python `re.match` with the pattern `^(?:[0-9]{1,3}\.){3}[0-9]{1,3}$`,
followed by an `int`-range check over `split('.')` parts) by `is_valid_ip`
on lists of characters.
-/

namespace SnmpMon

/-- One entry of `st.session_state.traffic_data`: the dict built at append
time, with `in`/`out` the rounded Mbps values and `delta_time` the rounded
elapsed time. -/
structure RateSample where
  timestamp : ℚ
  inMbps : ℚ
  outMbps : ℚ
  octIn : ℤ
  octOut : ℤ
  deltaTime : ℚ
  deriving DecidableEq, Repr

/-- The session state the monitoring tick reads and writes:
`traffic_data`, `prev_in`, `prev_out`, `prev_time`,
`first_collection_skipped` and `monitoring`. -/
structure MonState where
  trafficData : List RateSample
  prevIn : ℤ
  prevOut : ℤ
  prevTime : ℚ
  firstCollectionSkipped : Bool
  monitoring : Bool
  deriving DecidableEq, Repr

/-- How one monitoring tick ended: which `st.warning` / append branch ran. -/
inductive TickOutcome where
  | firstSample
  | elapsedOutOfRange
  | negativeDelta
  | zeroDelta
  | accepted
  deriving DecidableEq, Repr

/-- Round-half-to-even to an integer, as Python's builtin `round` does. -/
def roundHalfEven (x : ℚ) : ℤ :=
  if x - ⌊x⌋ < 1/2 then ⌊x⌋
  else if 1/2 < x - ⌊x⌋ then ⌊x⌋ + 1
  else if ⌊x⌋ % 2 = 0 then ⌊x⌋ else ⌊x⌋ + 1

/-- Python's `round(x, n)` for `n` decimal places. -/
def pyRound (x : ℚ) (n : ℕ) : ℚ := (roundHalfEven (x * 10 ^ n) : ℚ) / 10 ^ n

/-- One monitoring tick after a successful counter fetch: the reading
`(octIn, octOut)` arrives at time `t` (seconds).  Follows the source line by
line: the first collection only seeds `prev_*`; afterwards `prev_*` are
overwritten with the current reading before any check; the three rejection
checks run in order (elapsed out of range, negative delta, zero delta); on
acceptance the sample dict is appended to `traffic_data`. -/
def tick (s : MonState) (octIn octOut : ℤ) (t : ℚ) : MonState × TickOutcome :=
  if s.firstCollectionSkipped = false then
    ({ s with prevIn := octIn, prevOut := octOut, prevTime := t,
              firstCollectionSkipped := true }, TickOutcome.firstSample)
  else if t - s.prevTime < 1/2 ∨ 3 < t - s.prevTime then
    ({ s with prevIn := octIn, prevOut := octOut, prevTime := t },
      TickOutcome.elapsedOutOfRange)
  else if octIn - s.prevIn < 0 ∨ octOut - s.prevOut < 0 then
    ({ s with prevIn := octIn, prevOut := octOut, prevTime := t },
      TickOutcome.negativeDelta)
  else if octIn - s.prevIn = 0 ∧ octOut - s.prevOut = 0 then
    ({ s with prevIn := octIn, prevOut := octOut, prevTime := t },
      TickOutcome.zeroDelta)
  else
    ({ s with
        prevIn := octIn, prevOut := octOut, prevTime := t,
        trafficData := s.trafficData ++
          [{ timestamp := t,
             inMbps := pyRound ((((octIn - s.prevIn : ℤ) : ℚ) * 8) /
               ((t - s.prevTime) * 1000000)) 2,
             outMbps := pyRound ((((octOut - s.prevOut : ℤ) : ℚ) * 8) /
               ((t - s.prevTime) * 1000000)) 2,
             octIn := octIn, octOut := octOut,
             deltaTime := pyRound (t - s.prevTime) 3 }] },
      TickOutcome.accepted)

/-- The `except` handler of the monitoring loop: a transport error during
monitoring sets `st.session_state.monitoring = False` and touches nothing
else. -/
def transportError (s : MonState) : MonState := { s with monitoring := false }

/-- The display slice `traffic_data[-num_points:]` (for `num_points ≥ 1`):
the most recent `n` entries. -/
def lastN (n : ℕ) (l : List RateSample) : List RateSample :=
  l.drop (l.length - n)

/-- `pandas` `Series.max` over a nonempty column; the empty case is never
reached by `plot_graph` (guarded by `df.empty`). -/
def pdMax : List ℚ → ℚ
  | [] => 0
  | x :: xs => xs.foldl max x

/-- What `plot_graph` computes before charting: the chosen unit label, the
scaling factor, and the `in_display` / `out_display` columns. -/
structure PlotResult where
  unit : String
  factor : ℚ
  inDisplay : List ℚ
  outDisplay : List ℚ
  deriving DecidableEq, Repr

/-- The unit/scale logic of `plot_graph` over the `in` and `out` columns:
`max_val = max(df["in"].max() if monitor_in else 0,
df["out"].max() if monitor_out else 0)`; `Gbps`/1000 when `max_val >= 1000`,
else `Mbps`/1; each enabled column is divided by the factor. -/
def plot_graph (ins outs : List ℚ) (monitorIn monitorOut : Bool) : PlotResult :=
  if 1000 ≤ max (if monitorIn then pdMax ins else 0)
      (if monitorOut then pdMax outs else 0) then
    { unit := "Gbps", factor := 1000,
      inDisplay := if monitorIn then ins.map (fun v => v / 1000) else [],
      outDisplay := if monitorOut then outs.map (fun v => v / 1000) else [] }
  else
    { unit := "Mbps", factor := 1,
      inDisplay := if monitorIn then ins.map (fun v => v / 1) else [],
      outDisplay := if monitorOut then outs.map (fun v => v / 1) else [] }

/-! ### The target-address validator `is_valid_ip`

`is_valid_ip` runs `re.match(r"^(?:[0-9]{1,3}\.){3}[0-9]{1,3}$", s)` and then
checks `all(0 <= int(part) <= 255 for part in s.split('.'))`.  The regex is
embedded as an explicit matcher over `List Char`.  Python's `$` (without
`re.MULTILINE`) matches at the end of the string or just before a newline at
the end of the string, which `dollarEnd` reproduces. -/

/-- All ways `[0-9]{1,3}` can consume a prefix of `s`, as
(consumed digits, rest) pairs; `n` is the remaining repetition budget. -/
def digitSplitsAux : ℕ → List Char → List (List Char × List Char)
  | 0, _ => []
  | _ + 1, [] => []
  | n + 1, c :: r =>
    if c.isDigit then
      ([c], r) :: (digitSplitsAux n r).map (fun p => (c :: p.1, p.2))
    else []

/-- All ways `[0-9]{1,3}` can match a prefix. -/
def digitSplits (s : List Char) : List (List Char × List Char) :=
  digitSplitsAux 3 s

/-- All rests after matching `[0-9]{1,3}\.` at the head. -/
def afterGroupDot (s : List Char) : List (List Char) :=
  (digitSplits s).filterMap (fun p =>
    match p.2 with
    | '.' :: r => some r
    | _ => none)

/-- Python's `$` anchor outside MULTILINE mode: end of string, or just
before a newline that ends the string. -/
def dollarEnd : List Char → Bool
  | [] => true
  | [c] => c = '\n'
  | _ :: _ :: _ => false

/-- `re.match(r"^(?:[0-9]{1,3}\.){3}[0-9]{1,3}$", s)` as a Boolean. -/
def reMatchIp (s : List Char) : Bool :=
  (afterGroupDot s).any (fun r1 =>
    (afterGroupDot r1).any (fun r2 =>
      (afterGroupDot r2).any (fun r3 =>
        (digitSplits r3).any (fun p => dollarEnd p.2))))

/-- Python `str.split('.')`. -/
def splitDot : List Char → List (List Char)
  | [] => [[]]
  | c :: r =>
    if c = '.' then [] :: splitDot r
    else
      match splitDot r with
      | [] => [[c]]
      | p :: ps => (c :: p) :: ps

/-- Strip leading and trailing whitespace, as Python `int` does to its
string argument. -/
def stripChars (s : List Char) : List Char :=
  ((s.dropWhile Char.isWhitespace).reverse.dropWhile Char.isWhitespace).reverse

/-- Numeric value of a digit string. -/
def digitsToNat (s : List Char) : ℕ :=
  s.foldl (fun a c => 10 * a + (c.toNat - 48)) 0

/-- Python `int(part)` restricted to the strings that reach it here
(whitespace-padded unsigned decimal literals); `none` models the
`ValueError` path, which is unreachable once the regex has matched. -/
def pyIntOfDigits? (s : List Char) : Option ℕ :=
  if stripChars s ≠ [] ∧ (stripChars s).all Char.isDigit then
    some (digitsToNat (stripChars s))
  else none

/-- `is_valid_ip` from the source: regex gate, then the per-part
`0 <= int(part) <= 255` check over `split('.')`. -/
def is_valid_ip (s : List Char) : Bool :=
  if reMatchIp s then
    (splitDot s).all (fun part =>
      match pyIntOfDigits? part with
      | some n => decide (n ≤ 255)
      | none => false)
  else false

/-- The spec's acceptance condition, from its words: the string consists of
exactly four dot-separated groups of 1–3 digits, each group numerically in
[0, 255]. -/
def specGroupOk (g : List Char) : Bool :=
  decide (1 ≤ g.length) && decide (g.length ≤ 3) && g.all Char.isDigit &&
    decide (digitsToNat g ≤ 255)

/-- Spec-side validator: `split('.')` yields exactly four well-formed
groups. -/
def specValidIp (s : List Char) : Bool :=
  match splitDot s with
  | [g1, g2, g3, g4] => specGroupOk g1 && specGroupOk g2 && specGroupOk g3 && specGroupOk g4
  | _ => false

/-- The amended spec-side validator: as `specValidIp`, but also allowing a
single trailing newline after the four groups. -/
def specValidIpNL (s : List Char) : Bool :=
  specValidIp s ||
    (if s.getLast? = some '\n' then specValidIp s.dropLast else false)

/-! ## Helper lemmas about `tick` -/

/-- Every tick either leaves `traffic_data` unchanged or is the accepted
branch. -/
lemma tick_trafficData_or_accepted (s : MonState) (octIn octOut : ℤ) (t : ℚ) :
    (tick s octIn octOut t).1.trafficData = s.trafficData ∨
      (tick s octIn octOut t).2 = TickOutcome.accepted := by
  unfold tick
  repeat' split
  all_goals simp

/-- Characterisation of the accepted branch of `tick`. -/
lemma tick_accept_eq (s : MonState) (octIn octOut : ℤ) (t : ℚ)
    (hskip : s.firstCollectionSkipped = true)
    (helapsed : ¬(t - s.prevTime < 1/2 ∨ 3 < t - s.prevTime))
    (hneg : ¬(octIn - s.prevIn < 0 ∨ octOut - s.prevOut < 0))
    (hzero : ¬(octIn - s.prevIn = 0 ∧ octOut - s.prevOut = 0)) :
    tick s octIn octOut t =
      ({ s with
          prevIn := octIn, prevOut := octOut, prevTime := t,
          trafficData := s.trafficData ++
            [{ timestamp := t,
               inMbps := pyRound ((((octIn - s.prevIn : ℤ) : ℚ) * 8) /
                 ((t - s.prevTime) * 1000000)) 2,
               outMbps := pyRound ((((octOut - s.prevOut : ℤ) : ℚ) * 8) /
                 ((t - s.prevTime) * 1000000)) 2,
               octIn := octIn, octOut := octOut,
               deltaTime := pyRound (t - s.prevTime) 3 }] },
        TickOutcome.accepted) := by
  unfold tick
  rw [if_neg (by simp [hskip]), if_neg helapsed, if_neg hneg, if_neg hzero]

/-! ## The claims -/

/-- Claim C1: the displayed sample window `traffic_data[-num_points:]` never
holds more than `num_points` entries; after `n + k` appends it holds exactly
the most recent `n` samples, in append (chronological) order, the oldest `k`
having been dropped. -/
theorem c1_window_bounded_fifo (data : List RateSample) (n k : ℕ)
    (h5 : 5 ≤ n) (h300 : n ≤ 300) (hlen : data.length = n + k) :
    (lastN n data).length ≤ n ∧ (lastN n data).length = n ∧
      lastN n data = data.drop k := by
  refine ⟨?_, ?_, ?_⟩
  · simp only [lastN, List.length_drop]
    omega
  · simp only [lastN, List.length_drop, hlen]
    omega
  · unfold lastN
    rw [hlen]
    congr 1
    omega

/-- A fixed sample used by concrete witnesses. -/
def sampleAt (j : ℕ) : RateSample :=
  { timestamp := (j : ℚ), inMbps := 0, outMbps := 0, octIn := 0, octOut := 0,
    deltaTime := 0 }

/-- Seven appended samples, for the C1 witness (window size 5, overflow 2). -/
def dataW : List RateSample := (List.range 7).map sampleAt

theorem c1_window_bounded_fifo_witness :
    (lastN 5 dataW).length ≤ 5 ∧ (lastN 5 dataW).length = 5 ∧
      lastN 5 dataW = dataW.drop 2 :=
  c1_window_bounded_fifo dataW 5 2 (by decide) (by decide) (by simp [dataW])

/-- Claim C2: when a previous reading is stored, the elapsed time lies in
[0.5, 3.0], both deltas are non-negative and not both zero, the tick accepts
and appends exactly one sample whose `in`/`out` fields are
`(delta * 8) / (elapsed * 1e6)` rounded (Python `round`) to 2 decimal
places, once, at construction. -/
theorem c2_accepted_sample_formula (s : MonState) (octIn octOut : ℤ) (t : ℚ)
    (hskip : s.firstCollectionSkipped = true)
    (hlo : 1/2 ≤ t - s.prevTime) (hhi : t - s.prevTime ≤ 3)
    (hin : 0 ≤ octIn - s.prevIn) (hout : 0 ≤ octOut - s.prevOut)
    (hnz : ¬(octIn - s.prevIn = 0 ∧ octOut - s.prevOut = 0)) :
    (tick s octIn octOut t).2 = TickOutcome.accepted ∧
    (tick s octIn octOut t).1.trafficData = s.trafficData ++
      [{ timestamp := t,
         inMbps := pyRound ((((octIn - s.prevIn : ℤ) : ℚ) * 8) /
           ((t - s.prevTime) * 1000000)) 2,
         outMbps := pyRound ((((octOut - s.prevOut : ℤ) : ℚ) * 8) /
           ((t - s.prevTime) * 1000000)) 2,
         octIn := octIn, octOut := octOut,
         deltaTime := pyRound (t - s.prevTime) 3 }] := by
  rw [tick_accept_eq s octIn octOut t hskip
    (by push_neg; exact ⟨hlo, hhi⟩)
    (by push_neg; exact ⟨hin, hout⟩)
    hnz]
  exact ⟨rfl, rfl⟩

/-- A concrete state with a stored baseline (first collection skipped):
empty window, `prev_in = prev_out = 0`, `prev_time = 0`. -/
def stateW : MonState :=
  { trafficData := [], prevIn := 0, prevOut := 0, prevTime := 0,
    firstCollectionSkipped := true, monitoring := true }

theorem c2_accepted_sample_formula_witness :
    (tick stateW 125000 62500 1).2 = TickOutcome.accepted ∧
    (tick stateW 125000 62500 1).1.trafficData = stateW.trafficData ++
      [{ timestamp := 1,
         inMbps := pyRound ((((125000 - stateW.prevIn : ℤ) : ℚ) * 8) /
           ((1 - stateW.prevTime) * 1000000)) 2,
         outMbps := pyRound ((((62500 - stateW.prevOut : ℤ) : ℚ) * 8) /
           ((1 - stateW.prevTime) * 1000000)) 2,
         octIn := 125000, octOut := 62500,
         deltaTime := pyRound (1 - stateW.prevTime) 3 }] :=
  c2_accepted_sample_formula stateW 125000 62500 1 (by decide) (by norm_num [stateW])
    (by norm_num [stateW]) (by norm_num [stateW]) (by norm_num [stateW])
    (by norm_num [stateW])

/-- Claim C3: the rejection checks run in a fixed order — elapsed out of
range is reported first, then negative delta, then zero delta; in
particular an out-of-range elapsed time together with a negative delta is
reported as `elapsedOutOfRange`. -/
theorem c3_rejection_order (s : MonState) (octIn octOut : ℤ) (t : ℚ)
    (hskip : s.firstCollectionSkipped = true) :
    ((t - s.prevTime < 1/2 ∨ 3 < t - s.prevTime) →
      (tick s octIn octOut t).2 = TickOutcome.elapsedOutOfRange) ∧
    (¬(t - s.prevTime < 1/2 ∨ 3 < t - s.prevTime) →
      (octIn - s.prevIn < 0 ∨ octOut - s.prevOut < 0) →
      (tick s octIn octOut t).2 = TickOutcome.negativeDelta) ∧
    (¬(t - s.prevTime < 1/2 ∨ 3 < t - s.prevTime) →
      ¬(octIn - s.prevIn < 0 ∨ octOut - s.prevOut < 0) →
      (octIn - s.prevIn = 0 ∧ octOut - s.prevOut = 0) →
      (tick s octIn octOut t).2 = TickOutcome.zeroDelta) := by
  refine ⟨fun he => ?_, fun he hn => ?_, fun he hn hz => ?_⟩ <;>
    unfold tick
  · rw [if_neg (by simp [hskip]), if_pos he]
  · rw [if_neg (by simp [hskip]), if_neg he, if_pos hn]
  · rw [if_neg (by simp [hskip]), if_neg he, if_neg hn, if_pos hz]

theorem c3_rejection_order_witness :
    ((10 - stateW.prevTime < 1/2 ∨ 3 < 10 - stateW.prevTime) →
      (tick stateW (-3) 8 10).2 = TickOutcome.elapsedOutOfRange) ∧
    (¬(10 - stateW.prevTime < 1/2 ∨ 3 < 10 - stateW.prevTime) →
      ((-3) - stateW.prevIn < 0 ∨ 8 - stateW.prevOut < 0) →
      (tick stateW (-3) 8 10).2 = TickOutcome.negativeDelta) ∧
    (¬(10 - stateW.prevTime < 1/2 ∨ 3 < 10 - stateW.prevTime) →
      ¬((-3) - stateW.prevIn < 0 ∨ 8 - stateW.prevOut < 0) →
      ((-3) - stateW.prevIn = 0 ∧ 8 - stateW.prevOut = 0) →
      (tick stateW (-3) 8 10).2 = TickOutcome.zeroDelta) :=
  c3_rejection_order stateW (-3) 8 10 (by decide)

/-- Claim C4: on the first poll of a session (`first_collection_skipped`
false) the tick reports the first-sample rejection, appends nothing, and
stores the supplied reading (counters and timestamp) as the new baseline. -/
theorem c4_first_poll (s : MonState) (octIn octOut : ℤ) (t : ℚ)
    (h : s.firstCollectionSkipped = false) :
    (tick s octIn octOut t).2 = TickOutcome.firstSample ∧
    (tick s octIn octOut t).1.trafficData = s.trafficData ∧
    (tick s octIn octOut t).1.prevIn = octIn ∧
    (tick s octIn octOut t).1.prevOut = octOut ∧
    (tick s octIn octOut t).1.prevTime = t := by
  unfold tick
  rw [if_pos h]
  exact ⟨rfl, rfl, rfl, rfl, rfl⟩

/-- A concrete freshly-started session state (baseline not yet seeded). -/
def freshStateW : MonState :=
  { trafficData := [], prevIn := 0, prevOut := 0, prevTime := 0,
    firstCollectionSkipped := false, monitoring := true }

theorem c4_first_poll_witness :
    (tick freshStateW 42 7 9).2 = TickOutcome.firstSample ∧
    (tick freshStateW 42 7 9).1.trafficData = freshStateW.trafficData ∧
    (tick freshStateW 42 7 9).1.prevIn = 42 ∧
    (tick freshStateW 42 7 9).1.prevOut = 7 ∧
    (tick freshStateW 42 7 9).1.prevTime = 9 :=
  c4_first_poll freshStateW 42 7 9 (by decide)

/-- Claim C5: after every tick — accepted or rejected, first poll
included — the stored previous reading equals the reading that was just
supplied, so no comparison ever uses a baseline older than the immediately
preceding reading. -/
theorem c5_baseline_always_updated (s : MonState) (octIn octOut : ℤ) (t : ℚ) :
    (tick s octIn octOut t).1.prevIn = octIn ∧
    (tick s octIn octOut t).1.prevOut = octOut ∧
    (tick s octIn octOut t).1.prevTime = t := by
  unfold tick
  repeat' split
  all_goals exact ⟨rfl, rfl, rfl⟩

/-- Claim C6: a tick whose outcome is any rejection leaves `traffic_data`
completely unchanged. -/
theorem c6_rejection_preserves_window (s : MonState) (octIn octOut : ℤ)
    (t : ℚ) (h : (tick s octIn octOut t).2 ≠ TickOutcome.accepted) :
    (tick s octIn octOut t).1.trafficData = s.trafficData := by
  rcases tick_trafficData_or_accepted s octIn octOut t with h' | h'
  · exact h'
  · exact absurd h' h

theorem c6_rejection_preserves_window_witness :
    (tick stateW 5 5 10).1.trafficData = stateW.trafficData :=
  c6_rejection_preserves_window stateW 5 5 10
    (by norm_num [tick, stateW]; exact fun h => nomatch h)

/-- Claim C7: a transport error during an active monitoring session stops
monitoring (the flag becomes false, so no further tick runs) and leaves the
collected samples untouched for the final render/export. -/
theorem c7_transport_error_stops_and_preserves (s : MonState)
    (h : s.monitoring = true) :
    (transportError s).monitoring = false ∧
    (transportError s).trafficData = s.trafficData :=
  ⟨rfl, rfl⟩

theorem c7_transport_error_stops_and_preserves_witness :
    (transportError stateW).monitoring = false ∧
    (transportError stateW).trafficData = stateW.trafficData :=
  c7_transport_error_stops_and_preserves stateW (by decide)

/-- Claim C10: a pair with valid elapsed time and exactly one zero delta is
accepted (the zero-delta rejection needs both deltas zero), and the rate
formula applied to the zero delta stores exactly 0 for that direction. -/
theorem c10_single_zero_delta_accepted (s : MonState) (octIn octOut : ℤ)
    (t : ℚ) (hskip : s.firstCollectionSkipped = true)
    (hlo : 1/2 ≤ t - s.prevTime) (hhi : t - s.prevTime ≤ 3)
    (hcase : (octIn - s.prevIn = 0 ∧ 0 < octOut - s.prevOut) ∨
      (0 < octIn - s.prevIn ∧ octOut - s.prevOut = 0)) :
    (tick s octIn octOut t).2 = TickOutcome.accepted ∧
    (octIn - s.prevIn = 0 →
      ((tick s octIn octOut t).1.trafficData.getLast?).map RateSample.inMbps =
        some 0) ∧
    (octOut - s.prevOut = 0 →
      ((tick s octIn octOut t).1.trafficData.getLast?).map RateSample.outMbps =
        some 0) := by
  have helapsed : ¬(t - s.prevTime < 1/2 ∨ 3 < t - s.prevTime) := by
    push_neg; exact ⟨hlo, hhi⟩
  have hneg : ¬(octIn - s.prevIn < 0 ∨ octOut - s.prevOut < 0) := by
    push_neg
    rcases hcase with ⟨h1, h2⟩ | ⟨h1, h2⟩ <;> constructor <;> omega
  have hzero : ¬(octIn - s.prevIn = 0 ∧ octOut - s.prevOut = 0) := by
    rcases hcase with ⟨h1, h2⟩ | ⟨h1, h2⟩ <;> rintro ⟨g1, g2⟩ <;> omega
  rw [tick_accept_eq s octIn octOut t hskip helapsed hneg hzero]
  have hden : (t - s.prevTime) * 1000000 ≠ 0 := by
    have : (0 : ℚ) < t - s.prevTime := lt_of_lt_of_le (by norm_num) hlo
    positivity
  have hr0 : pyRound 0 2 = 0 := by
    simp [pyRound, roundHalfEven]
  refine ⟨rfl, fun hz => ?_, fun hz => ?_⟩ <;>
    simp only [List.getLast?_concat, Option.map_some, hz]
  · simpa using hr0
  · simpa using hr0

theorem c10_single_zero_delta_accepted_witness :
    (tick stateW 0 500000 1).2 = TickOutcome.accepted ∧
    (0 - stateW.prevIn = 0 →
      ((tick stateW 0 500000 1).1.trafficData.getLast?).map RateSample.inMbps =
        some 0) ∧
    (500000 - stateW.prevOut = 0 →
      ((tick stateW 0 500000 1).1.trafficData.getLast?).map RateSample.outMbps =
        some 0) :=
  c10_single_zero_delta_accepted stateW 0 500000 1 (by decide)
    (by norm_num [stateW]) (by norm_num [stateW])
    (Or.inl ⟨by norm_num [stateW], by norm_num [stateW]⟩)

/-! ## Helper lemmas about `pdMax` -/

lemma le_foldl_max (a : ℚ) (l : List ℚ) : a ≤ l.foldl max a := by
  induction l generalizing a with
  | nil => exact le_refl a
  | cons x xs ih => exact le_trans (le_max_left a x) (ih (max a x))

lemma foldl_max_max (a b : ℚ) (l : List ℚ) :
    l.foldl max (max a b) = max a (l.foldl max b) := by
  induction l generalizing a b with
  | nil => rfl
  | cons x xs ih =>
    simp only [List.foldl_cons]
    rw [max_assoc, ih]

lemma pdMax_nonneg (l : List ℚ) (h : ∀ v ∈ l, 0 ≤ v) : 0 ≤ pdMax l := by
  cases l with
  | nil => exact le_refl 0
  | cons x xs =>
    exact le_trans (h x (List.mem_cons_self x xs)) (le_foldl_max x xs)

lemma pdMax_eq_foldl_zero (l : List ℚ) (h : ∀ v ∈ l, 0 ≤ v) :
    pdMax l = l.foldl max 0 := by
  cases l with
  | nil => rfl
  | cons x xs =>
    simp only [pdMax, List.foldl_cons]
    rw [show max 0 x = x from max_eq_right (h x (List.mem_cons_self x xs))]

lemma pdMax_append (l1 l2 : List ℚ) (h1 : ∀ v ∈ l1, 0 ≤ v)
    (h2 : ∀ v ∈ l2, 0 ≤ v) :
    pdMax (l1 ++ l2) = max (pdMax l1) (pdMax l2) := by
  have h12 : ∀ v ∈ l1 ++ l2, 0 ≤ v := by
    intro v hv
    rcases List.mem_append.mp hv with hv | hv
    · exact h1 v hv
    · exact h2 v hv
  rw [pdMax_eq_foldl_zero _ h12, pdMax_eq_foldl_zero _ h1, pdMax_eq_foldl_zero _ h2,
    List.foldl_append]
  calc l2.foldl max (l1.foldl max 0)
      = l2.foldl max (max (l1.foldl max 0) 0) := by
        rw [max_eq_left (le_foldl_max 0 l1)]
    _ = max (l1.foldl max 0) (l2.foldl max 0) := foldl_max_max _ _ _

/-- Claim C8: the unit choice of `plot_graph` looks only at the enabled
directions — it is Gbps/1000 exactly when the maximum value over the
enabled columns reaches 1000, Mbps/1 otherwise — and each displayed column
is the stored column divided by the chosen factor. -/
theorem c8_unit_choice (ins outs : List ℚ) (monitorIn monitorOut : Bool)
    (hin : ∀ v ∈ ins, 0 ≤ v) (hout : ∀ v ∈ outs, 0 ≤ v) :
    ((plot_graph ins outs monitorIn monitorOut).unit =
      if 1000 ≤ pdMax ((if monitorIn then ins else []) ++
          (if monitorOut then outs else [])) then "Gbps" else "Mbps") ∧
    ((plot_graph ins outs monitorIn monitorOut).factor =
      if 1000 ≤ pdMax ((if monitorIn then ins else []) ++
          (if monitorOut then outs else [])) then 1000 else 1) ∧
    ((plot_graph ins outs monitorIn monitorOut).inDisplay =
      if monitorIn then
        ins.map (fun v => v / (plot_graph ins outs monitorIn monitorOut).factor)
      else []) ∧
    ((plot_graph ins outs monitorIn monitorOut).outDisplay =
      if monitorOut then
        outs.map (fun v => v / (plot_graph ins outs monitorIn monitorOut).factor)
      else []) := by
  have key : max (if monitorIn then pdMax ins else 0)
      (if monitorOut then pdMax outs else 0) =
      pdMax ((if monitorIn then ins else []) ++
        (if monitorOut then outs else [])) := by
    cases monitorIn <;> cases monitorOut <;>
      simp only [if_true, if_false, Bool.false_eq_true, List.nil_append,
        List.append_nil]
    · exact max_self 0
    · exact max_eq_right (pdMax_nonneg outs hout)
    · exact max_eq_left (pdMax_nonneg ins hin)
    · exact (pdMax_append ins outs hin hout).symm
  simp only [plot_graph, key]
  refine ⟨?_, ?_, ?_, ?_⟩ <;> (repeat' split) <;> rfl

theorem c8_unit_choice_witness :
    ((plot_graph [500, 800, 1200] [1, 2, 3] true true).unit =
      if 1000 ≤ pdMax ((if true then [500, 800, 1200] else []) ++
          (if true then [1, 2, 3] else [])) then "Gbps" else "Mbps") ∧
    ((plot_graph [500, 800, 1200] [1, 2, 3] true true).factor =
      if 1000 ≤ pdMax ((if true then [500, 800, 1200] else []) ++
          (if true then [1, 2, 3] else [])) then 1000 else 1) ∧
    ((plot_graph [500, 800, 1200] [1, 2, 3] true true).inDisplay =
      if true then
        [500, 800, 1200].map
          (fun v => v / (plot_graph [500, 800, 1200] [1, 2, 3] true true).factor)
      else []) ∧
    ((plot_graph [500, 800, 1200] [1, 2, 3] true true).outDisplay =
      if true then
        [1, 2, 3].map
          (fun v => v / (plot_graph [500, 800, 1200] [1, 2, 3] true true).factor)
      else []) :=
  c8_unit_choice [500, 800, 1200] [1, 2, 3] true true
    (by norm_num) (by norm_num)

/-! ## Characterising the regex matcher -/

/-- A maximal-3 digit group, as matched by one `[0-9]{1,3}` occurrence. -/
def digitGroup (g : List Char) : Prop :=
  1 ≤ g.length ∧ g.length ≤ 3 ∧ g.all Char.isDigit = true

lemma mem_digitSplitsAux (n : ℕ) (s p r : List Char) :
    (p, r) ∈ digitSplitsAux n s ↔
      s = p ++ r ∧ 1 ≤ p.length ∧ p.length ≤ n ∧ p.all Char.isDigit = true := by
  induction n generalizing s p r with
  | zero =>
    simp only [digitSplitsAux, List.not_mem_nil, false_iff]
    rintro ⟨-, h1, h2, -⟩
    omega
  | succ n ih =>
    cases s with
    | nil =>
      simp only [digitSplitsAux, List.not_mem_nil, false_iff]
      rintro ⟨heq, h1, -, -⟩
      have := congrArg List.length heq
      simp only [List.length_nil, List.length_append] at this
      omega
    | cons c cs =>
      by_cases hd : c.isDigit = true
      · simp only [digitSplitsAux, if_pos hd, List.mem_cons, List.mem_map]
        constructor
        · rintro (heq | ⟨⟨p', r'⟩, hmem, heq⟩)
          · obtain ⟨rfl, rfl⟩ := Prod.mk.injEq .. ▸ heq
            refine ⟨rfl, by simp, by simp, ?_⟩
            simp [hd]
          · obtain ⟨hcs, h1, h2, hall⟩ := (ih cs p' r').mp hmem
            obtain ⟨rfl, rfl⟩ : c :: p' = p ∧ r' = r := by
              simpa using heq
            refine ⟨by simp [hcs], by simp, by simp; omega, ?_⟩
            simp only [List.all_cons, Bool.and_eq_true]
            exact ⟨hd, hall⟩
        · rintro ⟨heq, h1, h2, hall⟩
          cases p with
          | nil => simp at h1
          | cons pc pcs =>
            obtain ⟨rfl, hcs⟩ : pc = c ∧ cs = pcs ++ r := by
              have := heq
              simp only [List.cons_append, List.cons.injEq] at this
              exact ⟨this.1.symm, this.2⟩
            simp only [List.all_cons, Bool.and_eq_true] at hall
            cases pcs with
            | nil => exact Or.inl (by simp [hcs])
            | cons qc qcs =>
              refine Or.inr ⟨(qc :: qcs, r), (ih cs (qc :: qcs) r).mpr
                ⟨hcs, by simp, ?_, ?_⟩, rfl⟩
              · simp only [List.length_cons] at h2 ⊢
                omega
              · simp only [List.all_cons, Bool.and_eq_true] at hall ⊢
                exact hall.2
      · simp only [digitSplitsAux, if_neg hd, List.not_mem_nil, false_iff]
        rintro ⟨heq, h1, h2, hall⟩
        cases p with
        | nil => simp at h1
        | cons pc pcs =>
          have hpc : pc = c := by
            simp only [List.cons_append, List.cons.injEq] at heq
            exact heq.1.symm
          simp only [List.all_cons, Bool.and_eq_true] at hall
          exact hd (hpc ▸ hall.1)

lemma mem_digitSplits (s p r : List Char) :
    (p, r) ∈ digitSplits s ↔
      s = p ++ r ∧ 1 ≤ p.length ∧ p.length ≤ 3 ∧ p.all Char.isDigit = true :=
  mem_digitSplitsAux 3 s p r

lemma mem_afterGroupDot (s r : List Char) :
    r ∈ afterGroupDot s ↔ ∃ g, s = g ++ '.' :: r ∧ digitGroup g := by
  simp only [afterGroupDot, List.mem_filterMap, Prod.exists]
  constructor
  · rintro ⟨p, q, hmem, hsome⟩
    split at hsome
    · rename_i r'
      have hr : r' = r := by simpa using hsome
      obtain ⟨hs, h1, h2, hall⟩ := (mem_digitSplits s p ('.' :: r')).mp hmem
      exact ⟨p, by rw [hs, hr], h1, h2, hall⟩
    · exact absurd hsome (by simp)
  · rintro ⟨g, hs, h1, h2, hall⟩
    exact ⟨g, '.' :: r, (mem_digitSplits s g ('.' :: r)).mpr ⟨hs, h1, h2, hall⟩, rfl⟩

lemma dollarEnd_iff (s : List Char) :
    dollarEnd s = true ↔ s = [] ∨ s = ['\n'] := by
  match s with
  | [] => simp [dollarEnd]
  | [c] => simp [dollarEnd]
  | c1 :: c2 :: cs => simp [dollarEnd]

/-- The regex `^(?:[0-9]{1,3}\.){3}[0-9]{1,3}$` matches (under Python's
`re.match` semantics) exactly the strings made of four dot-separated digit
groups of length 1–3, followed by nothing or by one final newline. -/
lemma reMatchIp_iff (s : List Char) :
    reMatchIp s = true ↔ ∃ g1 g2 g3 g4 tl,
      s = g1 ++ '.' :: (g2 ++ '.' :: (g3 ++ '.' :: (g4 ++ tl))) ∧
      digitGroup g1 ∧ digitGroup g2 ∧ digitGroup g3 ∧ digitGroup g4 ∧
      (tl = [] ∨ tl = ['\n']) := by
  simp only [reMatchIp, List.any_eq_true, Prod.exists, mem_afterGroupDot,
    mem_digitSplits]
  constructor
  · rintro ⟨r1, ⟨g1, hs, hg1⟩, r2, ⟨g2, hr1, hg2⟩, r3, ⟨g3, hr2, hg3⟩,
      g4, tl, ⟨hr3, h41, h42, h4all⟩, hend⟩
    exact ⟨g1, g2, g3, g4, tl,
      by rw [hs, hr1, hr2, hr3], hg1, hg2, hg3, ⟨h41, h42, h4all⟩,
      (dollarEnd_iff tl).mp hend⟩
  · rintro ⟨g1, g2, g3, g4, tl, hs, hg1, hg2, hg3, ⟨h41, h42, h4all⟩, hend⟩
    exact ⟨g2 ++ '.' :: (g3 ++ '.' :: (g4 ++ tl)), ⟨g1, hs, hg1⟩,
      g3 ++ '.' :: (g4 ++ tl), ⟨g2, rfl, hg2⟩,
      g4 ++ tl, ⟨g3, rfl, hg3⟩,
      g4, tl, ⟨rfl, h41, h42, h4all⟩, (dollarEnd_iff tl).mpr hend⟩

/-! ## `splitDot` lemmas -/

lemma splitDot_ne_nil (s : List Char) : splitDot s ≠ [] := by
  cases s with
  | nil => simp [splitDot]
  | cons c r =>
    simp only [splitDot]
    split
    · simp
    · split <;> simp

lemma splitDot_no_dot (l : List Char) (h : '.' ∉ l) : splitDot l = [l] := by
  induction l with
  | nil => rfl
  | cons c r ih =>
    have hc : ¬(c = '.') := fun e => h (e ▸ List.mem_cons_self c r)
    have hr : '.' ∉ r := fun m => h (List.mem_cons_of_mem c m)
    simp only [splitDot, if_neg hc, ih hr]

lemma splitDot_group_append (g r : List Char) (h : '.' ∉ g) :
    splitDot (g ++ '.' :: r) = g :: splitDot r := by
  induction g with
  | nil => simp [splitDot]
  | cons c gs ih =>
    have hc : ¬(c = '.') := fun e => h (e ▸ List.mem_cons_self c gs)
    have hgs : '.' ∉ gs := fun m => h (List.mem_cons_of_mem c m)
    simp only [List.cons_append, splitDot, if_neg hc]
    rw [show gs.append ('.' :: r) = gs ++ '.' :: r from rfl, ih hgs]

/-- Inverse of `splitDot`: rejoin the parts with dots. -/
def joinDots : List (List Char) → List Char
  | [] => []
  | [g] => g
  | g :: gs => g ++ '.' :: joinDots gs

lemma joinDots_splitDot (s : List Char) : joinDots (splitDot s) = s := by
  induction s with
  | nil => rfl
  | cons c r ih =>
    obtain ⟨p, ps, hps⟩ : ∃ p ps, splitDot r = p :: ps := by
      cases hsp : splitDot r with
      | nil => exact absurd hsp (splitDot_ne_nil r)
      | cons p ps => exact ⟨p, ps, rfl⟩
    by_cases hc : c = '.'
    · subst hc
      simp only [splitDot, if_pos rfl, hps]
      calc joinDots ([] :: p :: ps) = '.' :: joinDots (p :: ps) := rfl
        _ = '.' :: joinDots (splitDot r) := by rw [hps]
        _ = '.' :: r := by rw [ih]
    · simp only [splitDot, if_neg hc, hps]
      cases ps with
      | nil =>
        have hp : p = r := by
          have := ih
          rw [hps] at this
          exact this
        simp only [joinDots, hp]
      | cons q qs =>
        have hjoin : p ++ '.' :: joinDots (q :: qs) = r := by
          have := ih
          rw [hps] at this
          exact this
        calc joinDots ((c :: p) :: q :: qs)
            = (c :: p) ++ '.' :: joinDots (q :: qs) := rfl
          _ = c :: (p ++ '.' :: joinDots (q :: qs)) := rfl
          _ = c :: r := by rw [hjoin]

lemma splitDot_parts_no_dot (s : List Char) : ∀ p ∈ splitDot s, '.' ∉ p := by
  induction s with
  | nil =>
    intro p hp
    simp only [splitDot, List.mem_singleton] at hp
    simp [hp]
  | cons c r ih =>
    intro p hp
    simp only [splitDot] at hp
    split at hp
    · rcases List.mem_cons.mp hp with rfl | hp
      · simp
      · exact ih p hp
    · rename_i hc
      split at hp
      · rename_i heq
        simp only [List.mem_singleton] at hp
        subst hp
        intro hm
        rcases List.mem_cons.mp hm with h' | h'
        · exact hc h'.symm
        · simp at h'
      · rename_i p' ps' heq
        rcases List.mem_cons.mp hp with rfl | hp
        · intro hm
          rcases List.mem_cons.mp hm with h' | h'
          · exact hc h'.symm
          · exact ih p' (heq ▸ List.mem_cons_self p' ps') h'
        · exact ih p (heq ▸ List.mem_cons_of_mem p' hp)

/-! ## `int(part)` on the strings the regex lets through -/

lemma not_whitespace_of_isDigit (c : Char) (h : c.isDigit = true) :
    c.isWhitespace = false := by
  by_contra hw
  rw [Bool.not_eq_false] at hw
  simp only [Char.isWhitespace, Bool.or_eq_true, decide_eq_true_eq] at hw
  rcases hw with ((h1 | h1) | h1) | h1 <;> subst h1 <;>
    exact absurd h (by decide)

lemma dropWhile_ws_cons_digit (c : Char) (r : List Char)
    (h : c.isDigit = true) :
    (c :: r).dropWhile Char.isWhitespace = c :: r := by
  simp [List.dropWhile, not_whitespace_of_isDigit c h]

lemma dropWhile_ws_of_digits (l : List Char) (h : l.all Char.isDigit = true) :
    l.dropWhile Char.isWhitespace = l := by
  cases l with
  | nil => rfl
  | cons c r =>
    simp only [List.all_cons, Bool.and_eq_true] at h
    exact dropWhile_ws_cons_digit c r h.1

lemma stripChars_digits (g : List Char) (h : g.all Char.isDigit = true) :
    stripChars g = g := by
  unfold stripChars
  rw [dropWhile_ws_of_digits g h,
    dropWhile_ws_of_digits g.reverse (by rw [List.all_reverse]; exact h),
    List.reverse_reverse]

lemma stripChars_digits_newline (g : List Char) (hne : g ≠ [])
    (h : g.all Char.isDigit = true) :
    stripChars (g ++ ['\n']) = g := by
  unfold stripChars
  have h1 : (g ++ ['\n']).dropWhile Char.isWhitespace = g ++ ['\n'] := by
    cases g with
    | nil => exact absurd rfl hne
    | cons c gs =>
      rw [List.cons_append]
      refine dropWhile_ws_cons_digit c (gs ++ ['\n']) ?_
      simp only [List.all_cons, Bool.and_eq_true] at h
      exact h.1
  have h2 : (g ++ ['\n']).reverse = '\n' :: g.reverse := by simp
  have h3 : ('\n' :: g.reverse).dropWhile Char.isWhitespace =
      g.reverse.dropWhile Char.isWhitespace := by
    simp [List.dropWhile]
  rw [h1, h2, h3,
    dropWhile_ws_of_digits g.reverse (by rw [List.all_reverse]; exact h),
    List.reverse_reverse]

lemma pyInt_digits (g : List Char) (hne : 1 ≤ g.length)
    (h : g.all Char.isDigit = true) :
    pyIntOfDigits? g = some (digitsToNat g) := by
  have hg : g ≠ [] := by
    cases g
    · simp at hne
    · simp
  unfold pyIntOfDigits?
  rw [if_pos]
  · rw [stripChars_digits g h]
  · rw [stripChars_digits g h]
    exact ⟨hg, h⟩

lemma pyInt_digits_newline (g : List Char) (hne : 1 ≤ g.length)
    (h : g.all Char.isDigit = true) :
    pyIntOfDigits? (g ++ ['\n']) = some (digitsToNat g) := by
  have hg : g ≠ [] := by
    cases g
    · simp at hne
    · simp
  unfold pyIntOfDigits?
  rw [if_pos]
  · rw [stripChars_digits_newline g hg h]
  · rw [stripChars_digits_newline g hg h]
    exact ⟨hg, h⟩

/-- The per-part check `0 <= int(part) <= 255` as it appears inside
`is_valid_ip`. -/
lemma checkPart_digits (g : List Char) (hne : 1 ≤ g.length)
    (h : g.all Char.isDigit = true) :
    (match pyIntOfDigits? g with
      | some n => decide (n ≤ 255)
      | none => false) = decide (digitsToNat g ≤ 255) := by
  rw [pyInt_digits g hne h]

lemma checkPart_digits_newline (g : List Char) (hne : 1 ≤ g.length)
    (h : g.all Char.isDigit = true) :
    (match pyIntOfDigits? (g ++ ['\n']) with
      | some n => decide (n ≤ 255)
      | none => false) = decide (digitsToNat g ≤ 255) := by
  rw [pyInt_digits_newline g hne h]

/-! ## The two directions of the amended C9 -/

lemma dot_not_mem_digits (g : List Char) (h : g.all Char.isDigit = true) :
    '.' ∉ g := by
  intro m
  exact absurd (List.all_eq_true.mp h '.' m) (by decide)

lemma specGroupOk_true (g : List Char) (hd : digitGroup g)
    (hb : digitsToNat g ≤ 255) : specGroupOk g = true := by
  obtain ⟨h1, h2, h3⟩ := hd
  simp [specGroupOk, h1, h2, h3, hb]

lemma specGroupOk_elim (g : List Char) (h : specGroupOk g = true) :
    digitGroup g ∧ digitsToNat g ≤ 255 := by
  simp only [specGroupOk, Bool.and_eq_true, decide_eq_true_eq] at h
  exact ⟨⟨h.1.1.1, h.1.1.2, h.1.2⟩, h.2⟩

lemma splitDot_four_groups (g1 g2 g3 g4 tl : List Char)
    (h1 : g1.all Char.isDigit = true) (h2 : g2.all Char.isDigit = true)
    (h3 : g3.all Char.isDigit = true) (h4 : g4.all Char.isDigit = true)
    (htl : tl = [] ∨ tl = ['\n']) :
    splitDot (g1 ++ '.' :: (g2 ++ '.' :: (g3 ++ '.' :: (g4 ++ tl)))) =
      [g1, g2, g3, g4 ++ tl] := by
  have nd4t : '.' ∉ g4 ++ tl := by
    intro m
    rcases List.mem_append.mp m with m | m
    · exact dot_not_mem_digits g4 h4 m
    · rcases htl with rfl | rfl
      · simp at m
      · simp at m
  rw [splitDot_group_append _ _ (dot_not_mem_digits g1 h1),
    splitDot_group_append _ _ (dot_not_mem_digits g2 h2),
    splitDot_group_append _ _ (dot_not_mem_digits g3 h3),
    splitDot_no_dot _ nd4t]

lemma is_valid_ip_of_groups (g1 g2 g3 g4 tl : List Char)
    (hd1 : digitGroup g1) (hd2 : digitGroup g2) (hd3 : digitGroup g3)
    (hd4 : digitGroup g4)
    (hb1 : digitsToNat g1 ≤ 255) (hb2 : digitsToNat g2 ≤ 255)
    (hb3 : digitsToNat g3 ≤ 255) (hb4 : digitsToNat g4 ≤ 255)
    (htl : tl = [] ∨ tl = ['\n']) :
    is_valid_ip (g1 ++ '.' :: (g2 ++ '.' :: (g3 ++ '.' :: (g4 ++ tl)))) =
      true := by
  have hm : reMatchIp
      (g1 ++ '.' :: (g2 ++ '.' :: (g3 ++ '.' :: (g4 ++ tl)))) = true :=
    (reMatchIp_iff _).mpr ⟨g1, g2, g3, g4, tl, rfl, hd1, hd2, hd3, hd4, htl⟩
  unfold is_valid_ip
  rw [if_pos hm,
    splitDot_four_groups g1 g2 g3 g4 tl hd1.2.2 hd2.2.2 hd3.2.2 hd4.2.2 htl]
  simp only [List.all_cons, List.all_nil, Bool.and_eq_true, and_true]
  refine ⟨?_, ?_, ?_, ?_⟩
  · rw [checkPart_digits g1 hd1.1 hd1.2.2]
    simpa using hb1
  · rw [checkPart_digits g2 hd2.1 hd2.2.2]
    simpa using hb2
  · rw [checkPart_digits g3 hd3.1 hd3.2.2]
    simpa using hb3
  · rcases htl with rfl | rfl
    · rw [List.append_nil, checkPart_digits g4 hd4.1 hd4.2.2]
      simpa using hb4
    · rw [checkPart_digits_newline g4 hd4.1 hd4.2.2]
      simpa using hb4

lemma valid_ip_of_spec_tail (core tl : List Char)
    (h : specValidIp core = true) (htl : tl = [] ∨ tl = ['\n']) :
    is_valid_ip (core ++ tl) = true := by
  unfold specValidIp at h
  split at h
  · rename_i g1 g2 g3 g4 heq
    simp only [Bool.and_eq_true] at h
    obtain ⟨⟨⟨hk1, hk2⟩, hk3⟩, hk4⟩ := h
    obtain ⟨hd1, hb1⟩ := specGroupOk_elim g1 hk1
    obtain ⟨hd2, hb2⟩ := specGroupOk_elim g2 hk2
    obtain ⟨hd3, hb3⟩ := specGroupOk_elim g3 hk3
    obtain ⟨hd4, hb4⟩ := specGroupOk_elim g4 hk4
    have hcore : core = g1 ++ '.' :: (g2 ++ '.' :: (g3 ++ '.' :: g4)) := by
      have hj := joinDots_splitDot core
      rw [heq] at hj
      rw [← hj]
      simp [joinDots]
    have hshape : core ++ tl =
        g1 ++ '.' :: (g2 ++ '.' :: (g3 ++ '.' :: (g4 ++ tl))) := by
      rw [hcore]
      simp [List.append_assoc]
    rw [hshape]
    exact is_valid_ip_of_groups g1 g2 g3 g4 tl hd1 hd2 hd3 hd4
      hb1 hb2 hb3 hb4 htl
  · exact absurd h (by simp)

lemma specValidIpNL_of_valid_ip (s : List Char) (h : is_valid_ip s = true) :
    specValidIpNL s = true := by
  unfold is_valid_ip at h
  by_cases hm : reMatchIp s = true
  · rw [if_pos hm] at h
    obtain ⟨g1, g2, g3, g4, tl, hs, hd1, hd2, hd3, hd4, htl⟩ :=
      (reMatchIp_iff s).mp hm
    have hsplit : splitDot s = [g1, g2, g3, g4 ++ tl] := by
      rw [hs]
      exact splitDot_four_groups g1 g2 g3 g4 tl
        hd1.2.2 hd2.2.2 hd3.2.2 hd4.2.2 htl
    rw [hsplit] at h
    simp only [List.all_cons, List.all_nil, Bool.and_eq_true, and_true] at h
    obtain ⟨c1, c2, c3, c4⟩ := h
    rw [checkPart_digits g1 hd1.1 hd1.2.2] at c1
    rw [checkPart_digits g2 hd2.1 hd2.2.2] at c2
    rw [checkPart_digits g3 hd3.1 hd3.2.2] at c3
    simp only [decide_eq_true_eq] at c1 c2 c3
    rcases htl with rfl | rfl
    · rw [List.append_nil, checkPart_digits g4 hd4.1 hd4.2.2] at c4
      simp only [decide_eq_true_eq] at c4
      have hspec : specValidIp s = true := by
        unfold specValidIp
        rw [show splitDot s = [g1, g2, g3, g4] by
          rw [hsplit, List.append_nil]]
        simp [specGroupOk_true g1 hd1 c1, specGroupOk_true g2 hd2 c2,
          specGroupOk_true g3 hd3 c3, specGroupOk_true g4 hd4 c4]
      simp [specValidIpNL, hspec]
    · rw [checkPart_digits_newline g4 hd4.1 hd4.2.2] at c4
      simp only [decide_eq_true_eq] at c4
      have hsnl : s = (g1 ++ '.' :: (g2 ++ '.' :: (g3 ++ '.' :: g4))) ++
          ['\n'] := by
        rw [hs]
        simp [List.append_assoc]
      have hgl : s.getLast? = some '\n' := by
        rw [hsnl, List.getLast?_concat]
      have hdl : s.dropLast = g1 ++ '.' :: (g2 ++ '.' :: (g3 ++ '.' :: g4)) := by
        rw [hsnl, List.dropLast_concat]
      have h4g : splitDot (g1 ++ '.' :: (g2 ++ '.' :: (g3 ++ '.' :: g4))) =
          [g1, g2, g3, g4] := by
        have := splitDot_four_groups g1 g2 g3 g4 []
          hd1.2.2 hd2.2.2 hd3.2.2 hd4.2.2 (Or.inl rfl)
        simpa using this
      have hspec : specValidIp s.dropLast = true := by
        unfold specValidIp
        rw [hdl, h4g]
        simp [specGroupOk_true g1 hd1 c1, specGroupOk_true g2 hd2 c2,
          specGroupOk_true g3 hd3 c3, specGroupOk_true g4 hd4 c4]
      simp [specValidIpNL, hgl, hspec]
  · rw [if_neg hm] at h
    exact absurd h (by simp)

/-- Claim C9 counterexample: the string "1.2.3.4\n" is not four
dot-separated digit groups (its last `split('.')` part is "4\n"), yet
`is_valid_ip` accepts it — Python's `$` also matches just before a final
newline and `int("4\n")` strips the whitespace. -/
theorem c9_counterexample_trailing_newline :
    is_valid_ip ['1', '.', '2', '.', '3', '.', '4', '\n'] = true ∧
      specValidIp ['1', '.', '2', '.', '3', '.', '4', '\n'] = false := by
  decide

/-- Claim C9 (amended): `is_valid_ip` accepts a string if and only if it
consists of exactly four dot-separated groups of 1–3 digits, each group
numerically in [0, 255], optionally followed by one trailing newline
character; everything else is rejected. -/
theorem c9_amended_ip_validator (s : List Char) :
    is_valid_ip s = specValidIpNL s := by
  cases hv : is_valid_ip s with
  | true => exact (specValidIpNL_of_valid_ip s hv).symm
  | false =>
    cases hnl : specValidIpNL s with
    | false => rfl
    | true =>
      exfalso
      have hvt : is_valid_ip s = true := by
        unfold specValidIpNL at hnl
        simp only [Bool.or_eq_true] at hnl
        rcases hnl with h | h
        · have := valid_ip_of_spec_tail s [] h (Or.inl rfl)
          rwa [List.append_nil] at this
        · split at h
          · rename_i hgl
            have hs : s.dropLast ++ ['\n'] = s :=
              List.dropLast_append_getLast? '\n' (Option.mem_def.mpr hgl)
            have := valid_ip_of_spec_tail s.dropLast ['\n'] h (Or.inr rfl)
            rwa [hs] at this
          · exact absurd h (by simp)
      rw [hv] at hvt
      exact Bool.false_ne_true hvt

end SnmpMon
